import Mathlib

/-!
# Verification of the QueryIT RAG pipeline

Shallow embedding of the core logic of the QueryIT repository
(`constants.py`, `custom_types.py`, `data_loader.py`, `main.py`,
`vector_db.py`) together with theorems settling the specification's
claims about it.

External collaborators (the PDF reader, the sentence splitter, the
Gemini embedding client, the Qdrant client, the LLM) are modelled as
function parameters; the repository's own logic is translated
definition by definition.
-/

namespace QueryIT

/-! ## constants.py -/

/-- `constants.py`: `EMBEDDING_DIM = 3072`. -/
def EMBEDDING_DIM : Nat := 3072

/-- `constants.py`: `MAX_EMBED_BATCH = 100`. -/
def MAX_EMBED_BATCH : Nat := 100

/-! ## Python primitives used by the code

`str.strip()` and `dict.fromkeys` deduplication, modelled at the
`List Char` / `List String` level. -/

/-- Characters removed by Python's `str.strip()` (ASCII whitespace,
`string.whitespace`). -/
def pyIsSpace (c : Char) : Bool :=
  c = ' ' || c = '\t' || c = '\n' || c = '\x0b' || c = '\x0c' || c = '\r'

/-- Python `str.strip()` on the character list: drop whitespace from the
left, then from the right. -/
def pyStripChars (l : List Char) : List Char :=
  (l.dropWhile pyIsSpace).rdropWhile pyIsSpace

/-- Python `str.strip()`. -/
def pyStrip (s : String) : String :=
  (pyStripChars s.data).asString

/-- Python `list(dict.fromkeys(...))` with an explicit `seen`
accumulator: keep each string the first time it occurs. -/
def pyDedupAux (seen : List String) : List String → List String
  | [] => []
  | x :: xs => if x ∈ seen then pyDedupAux seen xs else x :: pyDedupAux (x :: seen) xs

/-- Python `list(dict.fromkeys(l))`: deduplicate, keeping first
occurrences in order. -/
def pyDedup (l : List String) : List String :=
  pyDedupAux [] l

/-! ## data_loader.py: chunking post-processing -/

/-- The pre-deduplication chunk sequence of `load_and_chunk_pdf`
(`data_loader.py` line 66): `(c.strip() for c in chunks if c.strip())`,
i.e. strip every chunk and keep the non-empty results. -/
def preChunks (chunks : List String) : List String :=
  (chunks.map pyStrip).filter (fun c => c ≠ "")

/-- `data_loader.py` line 66:
`chunks = list(dict.fromkeys(c.strip() for c in chunks if c.strip()))`. -/
def postProcess (chunks : List String) : List String :=
  pyDedup (preChunks chunks)

/-- Error taxonomy of spec §7.  `load_and_chunk_pdf` and `embed_texts`
are typed with it so that "fails with ..." claims are statable; the
translated code itself constructs none of these errors. -/
inductive RAGError where
  | emptyInput
  | dimensionMismatch
  deriving DecidableEq, Repr

/-- `data_loader.py` line 60:
`texts = [d.text for d in docs if getattr(d, "text", None)]` — keep the
truthy (present and non-empty) text attributes of the loaded documents. -/
def extractTexts (docs : List (Option String)) : List String :=
  docs.filterMap (fun t =>
    match t with
    | none => none
    | some s => if s = "" then none else some s)

/-- `data_loader.py` lines 46-68, `load_and_chunk_pdf`.  The external
`PDFReader().load_data(path)` result is the parameter `docs` (each
document's optional `text` attribute); the external
`splitter.split_texts` is the parameter `split`.  The body extracts the
truthy texts, splits them, strips/filters/deduplicates, and returns the
chunks; it has no failure path of its own. -/
def load_and_chunk_pdf (docs : List (Option String))
    (split : List String → List String) : Except RAGError (List String) :=
  Except.ok (postProcess (split (extractTexts docs)))

/-! ## data_loader.py: batching and embedding -/

/-- `data_loader.py` lines 70-81, `_batch_iter`: the generator
`for i in range(0, len(items), batch_size): yield items[i:i+batch_size]`,
written with an explicit fuel equal to the number of remaining items
(enough whenever `bs ≥ 1`; Python rejects `batch_size = 0` outright). -/
def batchIterAux (bs : Nat) : Nat → List String → List (List String)
  | _, [] => []
  | 0, _ :: _ => []
  | fuel + 1, x :: xs => (x :: xs).take bs :: batchIterAux bs fuel ((x :: xs).drop bs)

/-- `data_loader.py` `_batch_iter(items, batch_size)` as a list of
batches. -/
def batchIter (items : List String) (bs : Nat) : List (List String) :=
  batchIterAux bs items.length items

/-- `data_loader.py` lines 85-113, `embed_texts`.  The external Gemini
call `client.models.embed_content(...)` for one batch is the parameter
`provider`; the loop extends `all_embeddings` with each batch's vectors
(the `time.sleep` throttle has no effect on the value).  No
dimensionality check is performed anywhere in the body. -/
def embed_texts (provider : List String → List (List Float))
    (texts : List String) : List (List Float) :=
  ((batchIter texts MAX_EMBED_BATCH).map provider).flatten

/-! ## custom_types.py: the pydantic models

`RAGUpsertResult` is declared in `custom_types.py` lines 7-8 with the
single required field `inngest : int` (sic).  Pydantic keyword
construction takes each declared field from the keyword arguments by
name, ignores unknown keywords, and raises a `ValidationError` when a
required field is missing; `mkRAGUpsertResult` models exactly that for
this model. -/

/-- `custom_types.py` lines 7-8: `class RAGUpsertResult(pydantic.BaseModel)`
with field `inngest: int`. -/
structure RAGUpsertResult where
  inngest : Int
  deriving DecidableEq, Repr

/-- Pydantic keyword construction of `RAGUpsertResult`: the required
field `inngest` is looked up among the keyword arguments; if absent the
constructor raises `ValidationError`; unknown keywords are ignored. -/
def mkRAGUpsertResult (kwargs : List (String × Int)) : Except String RAGUpsertResult :=
  match kwargs.lookup "inngest" with
  | some v => Except.ok ⟨v⟩
  | none => Except.error "ValidationError: Field required [inngest]"

/-- `custom_types.py` lines 10-12. -/
structure RAGSearchResult where
  contexts : List String
  sources : List String
  deriving DecidableEq, Repr

/-- `custom_types.py` lines 14-17. -/
structure RAGQueryResult where
  answer : String
  sources : List String
  num_contexts : Nat
  deriving DecidableEq, Repr

/-! ## main.py: ingest flow -/

/-- `main.py` line 84: the name string `f"{source_id}:{i}"` hashed by
`uuid.uuid5`. -/
def pointName (source_id : String) (i : Nat) : String :=
  source_id ++ ":" ++ toString i

/-- `main.py` line 84: `str(uuid.uuid5(uuid.NAMESPACE_URL, f"{source_id}:{i}"))`,
with the external SHA-1-based `uuid.uuid5(NAMESPACE_URL, ·)` as the
parameter `uuid5`. -/
def pointId (uuid5 : String → String) (source_id : String) (i : Nat) : String :=
  uuid5 (pointName source_id i)

/-- `main.py` line 84: the id list
`[str(uuid.uuid5(uuid.NAMESPACE_URL, f"{source_id}:{i}")) for i in range(len(chunks))]`. -/
def upsertIds (uuid5 : String → String) (source_id : String) (n : Nat) : List String :=
  (List.range n).map (pointId uuid5 source_id)

/-- The payload dict `{"source": source_id, "text": chunks[i]}`
(`main.py` line 85). -/
structure Payload where
  source : String
  text : String
  deriving DecidableEq, Repr

/-- `main.py` line 85:
`[{"source": source_id, "text": chunks[i]} for i in range(len(chunks))]`. -/
def upsertPayloads (source_id : String) (chunks : List String) : List Payload :=
  (List.range chunks.length).map (fun i => ⟨source_id, chunks.getD i ""⟩)

/-- A Qdrant `PointStruct` (`vector_db.py` line 24). -/
structure Point where
  id : String
  vector : List Float
  payload : Payload

/-- `vector_db.py` lines 22-27, `QdrantStorage.upsert`: the point list
`[PointStruct(id=ids[i], vector=vectors[i], payload=payloads[i]) for i in range(len(ids))]`. -/
def buildPoints (ids : List String) (vectors : List (List Float))
    (payloads : List Payload) : List Point :=
  (List.range ids.length).map (fun i =>
    ⟨ids.getD i "", vectors.getD i [], payloads.getD i ⟨"", ""⟩⟩)

/-- The vector-store collection as a map from point id to stored
vector and payload. -/
def Store : Type := String → Option (List Float × Payload)

/-- Qdrant upsert semantics for a list of points: each point is written
keyed by its id, a later write to the same id overwriting an earlier
one (insert-or-overwrite, no merge). -/
def applyUpsert (st : Store) : List Point → Store
  | [] => st
  | p :: ps =>
    applyUpsert (fun k => if k = p.id then some (p.vector, p.payload) else st k) ps

/-- `main.py` lines 49-58, `_load`: dynamic event-payload access.  The
event's `data` dict is modelled as an association list;
`pdf_path = ctx.event.data["pdf_path"]` (a `KeyError`, hence `none`,
when absent) and `source_id = ctx.event.data.get("source", pdf_path)`.
Note the consulted key is `"source"`. -/
def resolveSourceId (data : List (String × String)) : Option String :=
  match data.lookup "pdf_path" with
  | none => none
  | some pdf_path => some ((data.lookup "source").getD pdf_path)

/-- `main.py` line 91: the final statement of `_upsert`,
`return RAGUpsertResult(ingested=len(chunks))` — keyword construction
of the pydantic model with the single keyword `ingested`. -/
def upsertResultOf (chunks : List String) : Except String RAGUpsertResult :=
  mkRAGUpsertResult [("ingested", (chunks.length : Int))]

/-! ## vector_db.py: search -/

/-- The payload dict stored on a scored point as Qdrant returns it:
possibly absent entirely, with optional `"text"` and `"source"`
entries. -/
structure PayloadDict where
  textEntry : Option String
  sourceEntry : Option String
  deriving DecidableEq, Repr

/-- A scored point of `client.query_points(...).points`
(`vector_db.py` lines 38, 43-44): only its (optional) payload matters
to the result reconstruction. -/
structure QPoint where
  payload : Option PayloadDict
  deriving DecidableEq, Repr

/-- `vector_db.py` lines 44-45: `payload = getattr(r, "payload", None) or {}`
then `text = payload.get("text", "")`. -/
def pointText (r : QPoint) : String :=
  ((r.payload.getD ⟨none, none⟩).textEntry).getD ""

/-- `vector_db.py` line 46: `source = payload.get("source", "")`. -/
def pointSource (r : QPoint) : String :=
  ((r.payload.getD ⟨none, none⟩).sourceEntry).getD ""

/-- `vector_db.py` lines 40-52, `QdrantStorage.search` result
reconstruction: the loop over the scored points appends `text` to
`contexts` and adds `source` to the `sources` set whenever `text` is
truthy.  Python's `set` is unordered, so `sources` is a `Finset`. -/
def searchLoop (results : List QPoint) : List String × Finset String :=
  results.foldl (fun acc r =>
    let text := pointText r
    let source := pointSource r
    if text ≠ "" then (acc.1 ++ [text], insert source acc.2) else acc)
    ([], ∅)

/-- The scored points that contribute to the search result: those with
non-empty text payload. -/
def contributing (results : List QPoint) : List QPoint :=
  results.filter (fun r => pointText r ≠ "")

/-! ## main.py: query flow -/

/-- `main.py` line 160:
`context_block = "\n\n".join(f"- {c}" for c in found.contexts)`. -/
def contextBlock (contexts : List String) : String :=
  String.intercalate "\n\n" (contexts.map (fun c => "- " ++ c))

/-- The claim's reading of the context block, for comparison: the
contexts joined by a newline. -/
def newlineJoined (contexts : List String) : String :=
  String.intercalate "\n" contexts

/-- `main.py` lines 164-168: the user prompt assembled around the
context block. -/
def userContent (question : String) (contexts : List String) : String :=
  "Answer the question using ONLY the context below.\n\n" ++
    "Context:\n" ++ contextBlock contexts ++ "\n\n" ++
    "Question: " ++ question ++ "\n\n"

/-- `main.py` lines 150-199, `rag_query_pdf_ai` after the
`embed-and-search` step produced `found`: assemble the prompt,
unconditionally invoke the LLM (`ctx.step.ai.infer`, the parameter
`llm`, returning the text at `candidates[0].content.parts[0].text`),
strip the answer, and return
`{"answer": answer, "sources": found.sources, "num_contexts": len(found.contexts)}`. -/
def rag_query_pdf_ai (llm : String → String) (question : String)
    (found : RAGSearchResult) : RAGQueryResult :=
  { answer := pyStrip (llm (userContent question found.contexts))
    sources := found.sources
    num_contexts := found.contexts.length }

/-! ## Helper lemmas: `pyStrip` -/

theorem data_asString (l : List Char) : (l.asString).data = l := rfl

/-- Stripping is idempotent at the character-list level. -/
theorem pyStripChars_idem (l : List Char) :
    pyStripChars (pyStripChars l) = pyStripChars l := by
  have h1 : ∀ m : List Char, (∀ hl : 0 < m.length, ¬ pyIsSpace (m.get ⟨0, hl⟩)) →
      ((m.rdropWhile pyIsSpace).dropWhile pyIsSpace) = m.rdropWhile pyIsSpace := by
    intro m hm
    rw [List.dropWhile_eq_self_iff]
    intro hl
    have hpre : List.rdropWhile pyIsSpace m <+: m := List.rdropWhile_prefix pyIsSpace m
    have hm0 : 0 < m.length := lt_of_lt_of_le hl hpre.length_le
    have hget : (List.rdropWhile pyIsSpace m).get ⟨0, hl⟩ = m.get ⟨0, hm0⟩ := by
      simp only [List.get_eq_getElem]
      exact hpre.getElem hl
    rw [hget]
    exact hm hm0
  unfold pyStripChars
  rw [h1 (l.dropWhile pyIsSpace) (fun hl => List.dropWhile_get_zero_not pyIsSpace l hl),
    List.rdropWhile_idempotent]

/-- Python `str.strip()` is idempotent. -/
theorem pyStrip_idem (s : String) : pyStrip (pyStrip s) = pyStrip s := by
  unfold pyStrip
  rw [data_asString, pyStripChars_idem]

/-! ## Helper lemmas: `pyDedup` -/

theorem pyDedupAux_sublist (seen l : List String) :
    (pyDedupAux seen l).Sublist l := by
  induction l generalizing seen with
  | nil => simp [pyDedupAux]
  | cons x xs ih =>
    simp only [pyDedupAux]
    split
    · exact (ih seen).cons x
    · exact (ih (x :: seen)).cons₂ x

theorem mem_pyDedupAux {x : String} (seen l : List String) :
    x ∈ pyDedupAux seen l ↔ x ∈ l ∧ x ∉ seen := by
  induction l generalizing seen with
  | nil => simp [pyDedupAux]
  | cons y ys ih =>
    simp only [pyDedupAux]
    split
    case isTrue h =>
      rw [ih, List.mem_cons]
      constructor
      · rintro ⟨hm, hn⟩; exact ⟨Or.inr hm, hn⟩
      · rintro ⟨hm | hm, hn⟩
        · exact absurd (hm ▸ h) hn
        · exact ⟨hm, hn⟩
    case isFalse h =>
      rw [List.mem_cons, ih]
      by_cases hxy : x = y
      · subst hxy
        simp [h]
      · simp only [hxy, false_or, List.mem_cons]

theorem pyDedupAux_nodup (seen l : List String) : (pyDedupAux seen l).Nodup := by
  induction l generalizing seen with
  | nil => simp [pyDedupAux]
  | cons y ys ih =>
    simp only [pyDedupAux]
    split
    · exact ih seen
    · refine List.nodup_cons.mpr ⟨?_, ih (y :: seen)⟩
      intro hmem
      exact ((mem_pyDedupAux _ _).mp hmem).2 (List.mem_cons_self _ _)

theorem pyDedupAux_pairwise_indexOf (seen l : List String) :
    (pyDedupAux seen l).Pairwise (fun a b => l.indexOf a < l.indexOf b) := by
  induction l generalizing seen with
  | nil => simp [pyDedupAux]
  | cons y ys ih =>
    simp only [pyDedupAux]
    split
    case isTrue hy =>
      refine (ih seen).imp_of_mem ?_
      intro a b ha hb hab
      have ha' := (mem_pyDedupAux seen ys).mp ha
      have hb' := (mem_pyDedupAux seen ys).mp hb
      have hay : y ≠ a := fun h => ha'.2 (h ▸ hy)
      have hby : y ≠ b := fun h => hb'.2 (h ▸ hy)
      rw [List.indexOf_cons_ne _ hay, List.indexOf_cons_ne _ hby]
      omega
    case isFalse hy =>
      refine List.pairwise_cons.mpr ⟨?_, ?_⟩
      · intro b hb
        have hb' := (mem_pyDedupAux _ _).mp hb
        have hby : y ≠ b := fun h => hb'.2 (h ▸ List.mem_cons_self y seen)
        rw [List.indexOf_cons_self, List.indexOf_cons_ne _ hby]
        exact Nat.succ_pos _
      · refine (ih (y :: seen)).imp_of_mem ?_
        intro a b ha hb hab
        have ha' := (mem_pyDedupAux _ _).mp ha
        have hb' := (mem_pyDedupAux _ _).mp hb
        have hay : y ≠ a := fun h => ha'.2 (h ▸ List.mem_cons_self y seen)
        have hby : y ≠ b := fun h => hb'.2 (h ▸ List.mem_cons_self y seen)
        rw [List.indexOf_cons_ne _ hay, List.indexOf_cons_ne _ hby]
        omega

theorem pyDedup_sublist (l : List String) : (pyDedup l).Sublist l :=
  pyDedupAux_sublist [] l

theorem mem_pyDedup {x : String} (l : List String) : x ∈ pyDedup l ↔ x ∈ l := by
  rw [pyDedup, mem_pyDedupAux]
  simp

theorem pyDedup_nodup (l : List String) : (pyDedup l).Nodup :=
  pyDedupAux_nodup [] l

theorem pyDedup_pairwise_indexOf (l : List String) :
    (pyDedup l).Pairwise (fun a b => l.indexOf a < l.indexOf b) :=
  pyDedupAux_pairwise_indexOf [] l

/-! ## Claim C2: chunking post-processing -/

/-- **C2**: for every input text, every chunk output by the chunking
operation is non-empty after whitespace trimming (it is its own trim
and is non-empty), the output contains no two equal strings, and the
surviving chunks appear in order of their first occurrence in the
pre-deduplication chunk sequence `preChunks chunks`. -/
theorem postProcess_nonempty_nodup_first_occurrence (chunks : List String) :
    (∀ c ∈ postProcess chunks, pyStrip c = c ∧ c ≠ "") ∧
    (postProcess chunks).Nodup ∧
    (postProcess chunks).Pairwise
      (fun a b => (preChunks chunks).indexOf a < (preChunks chunks).indexOf b) := by
  refine ⟨?_, pyDedup_nodup _, pyDedup_pairwise_indexOf _⟩
  intro c hc
  have hc' : c ∈ preChunks chunks := (mem_pyDedup _).mp hc
  unfold preChunks at hc'
  have hmem := List.mem_filter.mp hc'
  have hne : c ≠ "" := by simpa using hmem.2
  obtain ⟨orig, _, rfl⟩ := List.mem_map.mp hmem.1
  exact ⟨pyStrip_idem orig, hne⟩

/-- Witness for C2 at a concrete input with whitespace, an empty chunk
and a duplicate. -/
theorem postProcess_nonempty_nodup_first_occurrence_witness :
    postProcess [" a ", "a", "", "b"] = ["a", "b"] ∧
    (∀ c ∈ postProcess [" a ", "a", "", "b"], pyStrip c = c ∧ c ≠ "") ∧
    (postProcess [" a ", "a", "", "b"]).Nodup :=
  ⟨by decide,
    (postProcess_nonempty_nodup_first_occurrence [" a ", "a", "", "b"]).1,
    (postProcess_nonempty_nodup_first_occurrence [" a ", "a", "", "b"]).2.1⟩

/-! ## Claim C3: behaviour on inputs with no extractable text -/

/-- **C3 counterexample**: with no text blocks at all (and the splitter
mapping the empty list to itself), `load_and_chunk_pdf` returns
normally with `Except.ok []`; it does not fail with `EmptyInputError`
as the claim states. -/
theorem load_and_chunk_pdf_empty_input_returns_ok :
    load_and_chunk_pdf [] (fun texts => texts) = Except.ok [] ∧
      load_and_chunk_pdf [] (fun texts => texts) ≠
        Except.error RAGError.emptyInput := by
  constructor
  · rfl
  · intro h
    exact Except.noConfusion h

/-- **C3 (amended)**: for every input with no extractable text (no text
blocks, or only whitespace/empty chunks — i.e. every chunk the splitter
produces strips to the empty string, vacuously so when there are none),
`load_and_chunk_pdf` returns normally with the empty chunk list
`Except.ok []`; no `EmptyInputError` exists in the code. -/
theorem load_and_chunk_pdf_no_text_returns_empty
    (docs : List (Option String)) (split : List String → List String)
    (h : ∀ c ∈ split (extractTexts docs), pyStrip c = "") :
    load_and_chunk_pdf docs split = Except.ok [] := by
  unfold load_and_chunk_pdf postProcess preChunks
  have hfil : ((split (extractTexts docs)).map pyStrip).filter
      (fun c => c ≠ "") = [] := by
    rw [List.filter_eq_nil_iff]
    intro a ha
    obtain ⟨orig, ho, rfl⟩ := List.mem_map.mp ha
    simp [h orig ho]
  rw [hfil]
  rfl

/-- Witness for the amended C3: a single all-whitespace text block with
the identity splitter yields `Except.ok []`. -/
theorem load_and_chunk_pdf_no_text_returns_empty_witness :
    load_and_chunk_pdf [some "  "] (fun texts => texts) = Except.ok [] :=
  load_and_chunk_pdf_no_text_returns_empty [some "  "] (fun texts => texts)
    (by decide)

/-! ## Helper lemmas: batching -/

theorem batchIterAux_flatten {bs : Nat} (hbs : 0 < bs) :
    ∀ (fuel : Nat) (l : List String), l.length ≤ fuel →
      (batchIterAux bs fuel l).flatten = l := by
  intro fuel
  induction fuel with
  | zero =>
    intro l hl
    cases l with
    | nil => simp [batchIterAux]
    | cons x xs => simp at hl
  | succ fuel ih =>
    intro l hl
    cases l with
    | nil => simp [batchIterAux]
    | cons x xs =>
      simp only [batchIterAux, List.flatten_cons]
      rw [ih ((x :: xs).drop bs) ?_]
      · exact List.take_append_drop bs (x :: xs)
      · rw [List.length_drop]
        simp only [List.length_cons] at hl ⊢
        omega

theorem batchIterAux_length_le (bs fuel : Nat) (l : List String) :
    ∀ b ∈ batchIterAux bs fuel l, b.length ≤ bs := by
  induction fuel generalizing l with
  | zero =>
    cases l with
    | nil => simp [batchIterAux]
    | cons x xs => simp [batchIterAux]
  | succ fuel ih =>
    cases l with
    | nil => simp [batchIterAux]
    | cons x xs =>
      simp only [batchIterAux, List.mem_cons]
      rintro b (rfl | hb)
      · exact List.length_take_le bs (x :: xs)
      · exact ih _ b hb

/-- The batches concatenate back to the input (for positive batch
size). -/
theorem batchIter_flatten (items : List String) {bs : Nat} (hbs : 0 < bs) :
    (batchIter items bs).flatten = items :=
  batchIterAux_flatten hbs items.length items le_rfl

/-- Every batch has at most `bs` elements. -/
theorem batchIter_length_le (items : List String) (bs : Nat) :
    ∀ b ∈ batchIter items bs, b.length ≤ bs :=
  batchIterAux_length_le bs items.length items

/-! ## Claim C4: batched embedding is length- and order-preserving -/

/-- **C4**: for every list of texts, assuming the provider returns one
vector per submitted text in submission order (`provider b = b.map E`),
`embed_texts` returns exactly one vector per input text in input order
(`texts.map E`, hence of length `N`), every provider call receives a
batch of at most `MAX_EMBED_BATCH` texts, and the concatenation of the
batches over all calls equals the input list. -/
theorem embed_texts_length_order_batches
    (provider : List String → List (List Float)) (E : String → List Float)
    (texts : List String) (hp : ∀ b, provider b = b.map E) :
    embed_texts provider texts = texts.map E ∧
    (embed_texts provider texts).length = texts.length ∧
    (∀ b ∈ batchIter texts MAX_EMBED_BATCH, b.length ≤ MAX_EMBED_BATCH) ∧
    (batchIter texts MAX_EMBED_BATCH).flatten = texts := by
  have hflat : (batchIter texts MAX_EMBED_BATCH).flatten = texts :=
    batchIter_flatten texts (by decide)
  have hprov : provider = fun b => b.map E := funext hp
  have hmain : embed_texts provider texts = texts.map E := by
    unfold embed_texts
    calc ((batchIter texts MAX_EMBED_BATCH).map provider).flatten
        = ((batchIter texts MAX_EMBED_BATCH).map (fun b => b.map E)).flatten := by
          rw [hprov]
      _ = ((batchIter texts MAX_EMBED_BATCH).flatten).map E :=
          (List.map_flatten E _).symm
      _ = texts.map E := by rw [hflat]
  exact ⟨hmain, by rw [hmain, List.length_map],
    batchIter_length_le texts MAX_EMBED_BATCH, hflat⟩

/-- Witness for C4, exercising the multi-batch path with
`N = MAX_EMBED_BATCH + 1 = 101` inputs. -/
theorem embed_texts_length_order_batches_witness :
    embed_texts (fun b => b.map (fun _ => ([] : List Float)))
        (List.replicate 101 "t") =
      (List.replicate 101 "t").map (fun _ => ([] : List Float)) ∧
    (embed_texts (fun b => b.map (fun _ => ([] : List Float)))
        (List.replicate 101 "t")).length = (List.replicate 101 "t").length ∧
    (∀ b ∈ batchIter (List.replicate 101 "t") MAX_EMBED_BATCH,
      b.length ≤ MAX_EMBED_BATCH) ∧
    (batchIter (List.replicate 101 "t") MAX_EMBED_BATCH).flatten =
      List.replicate 101 "t" :=
  embed_texts_length_order_batches (fun b => b.map (fun _ => ([] : List Float)))
    (fun _ => ([] : List Float)) (List.replicate 101 "t") (fun _ => rfl)

/-! ## Claim C5: no dimensionality check in `embed_texts` -/

/-- **C5 counterexample**: a provider that returns a 0-dimensional
vector for every text (`0 ≠ EMBEDDING_DIM = 3072`); `embed_texts`
returns that vector unchanged instead of failing with
`DimensionMismatchError` (the translated body, like the Python body,
has no failure path and no dimension check). -/
theorem embed_texts_wrong_dim_returned :
    embed_texts (fun b => b.map (fun _ => ([] : List Float))) ["a"] = [[]] ∧
      (([] : List Float)).length ≠ EMBEDDING_DIM := by
  constructor
  · rfl
  · decide

/-- **C5 (amended)**: `embed_texts` performs no dimensionality check:
whenever the provider returns one vector per text, those vectors are
returned as-is even if every one of them has a dimensionality different
from the configured `EMBEDDING_DIM`; no `DimensionMismatchError` is
raised. -/
theorem embed_texts_no_dimension_check
    (provider : List String → List (List Float)) (E : String → List Float)
    (texts : List String) (hp : ∀ b, provider b = b.map E)
    (hdim : ∀ t, (E t).length ≠ EMBEDDING_DIM) :
    embed_texts provider texts = texts.map E ∧
    ∀ v ∈ embed_texts provider texts, v.length ≠ EMBEDDING_DIM := by
  have hprov : provider = fun b => b.map E := funext hp
  have hmain : embed_texts provider texts = texts.map E := by
    unfold embed_texts
    calc ((batchIter texts MAX_EMBED_BATCH).map provider).flatten
        = ((batchIter texts MAX_EMBED_BATCH).map (fun b => b.map E)).flatten := by
          rw [hprov]
      _ = ((batchIter texts MAX_EMBED_BATCH).flatten).map E :=
          (List.map_flatten E _).symm
      _ = texts.map E := by rw [batchIter_flatten texts (by decide)]
  refine ⟨hmain, ?_⟩
  intro v hv
  rw [hmain] at hv
  obtain ⟨t, _, rfl⟩ := List.mem_map.mp hv
  exact hdim t

/-- Witness for the amended C5. -/
theorem embed_texts_no_dimension_check_witness :
    embed_texts (fun b => b.map (fun _ => ([] : List Float))) ["a", "b"] =
      ["a", "b"].map (fun _ => ([] : List Float)) ∧
    ∀ v ∈ embed_texts (fun b => b.map (fun _ => ([] : List Float))) ["a", "b"],
      v.length ≠ EMBEDDING_DIM :=
  embed_texts_no_dimension_check (fun b => b.map (fun _ => ([] : List Float)))
    (fun _ => ([] : List Float)) ["a", "b"] (fun _ => rfl)
    (fun _ => (by decide : ([] : List Float).length ≠ EMBEDDING_DIM))

/-! ## Helper lemmas: decimal representation of `Nat`

`pointName` embeds the index through `toString`/`Nat.repr`; these
lemmas show the decimal representation never contains `':'` and is
injective, so that names `f"{source_id}:{i}"` separate cleanly. -/

/-- Numeric value of a decimal digit character. -/
def digitVal (c : Char) : Nat := c.toNat - '0'.toNat

/-- Value of a most-significant-first decimal digit string. -/
def decValChars (l : List Char) : Nat :=
  l.foldl (fun a c => 10 * a + digitVal c) 0

theorem digitVal_digitChar (d : Nat) (hd : d < 10) :
    digitVal (Nat.digitChar d) = d := by
  interval_cases d <;> rfl

theorem digitChar_ne_colon (d : Nat) (hd : d < 10) : Nat.digitChar d ≠ ':' := by
  interval_cases d <;> decide

theorem toDigitsCore_append (b : Nat) :
    ∀ (fuel n : Nat) (ds : List Char),
      Nat.toDigitsCore b fuel n ds = Nat.toDigitsCore b fuel n [] ++ ds := by
  intro fuel
  induction fuel with
  | zero => intro n ds; rfl
  | succ fuel ih =>
    intro n ds
    simp only [Nat.toDigitsCore]
    split
    · rfl
    · rw [ih (n / b) (Nat.digitChar (n % b) :: ds),
        ih (n / b) (Nat.digitChar (n % b) :: []), List.append_assoc]
      rfl

theorem mem_toDigitsCore_ten :
    ∀ (fuel n : Nat) (ds : List Char) (c : Char),
      c ∈ Nat.toDigitsCore 10 fuel n ds →
        c ∈ ds ∨ ∃ d, d < 10 ∧ c = Nat.digitChar d := by
  intro fuel
  induction fuel with
  | zero => intro n ds c hc; exact Or.inl hc
  | succ fuel ih =>
    intro n ds c hc
    simp only [Nat.toDigitsCore] at hc
    split at hc
    · rcases List.mem_cons.mp hc with rfl | h
      · exact Or.inr ⟨n % 10, Nat.mod_lt _ (by decide), rfl⟩
      · exact Or.inl h
    · rcases ih (n / 10) (Nat.digitChar (n % 10) :: ds) c hc with h | h
      · rcases List.mem_cons.mp h with rfl | h
        · exact Or.inr ⟨n % 10, Nat.mod_lt _ (by decide), rfl⟩
        · exact Or.inl h
      · exact Or.inr h

theorem decValChars_toDigitsCore :
    ∀ (fuel n : Nat), n < 10 ^ fuel →
      decValChars (Nat.toDigitsCore 10 fuel n []) = n := by
  intro fuel
  induction fuel with
  | zero =>
    intro n hn
    simp only [pow_zero, Nat.lt_one_iff] at hn
    subst hn
    rfl
  | succ fuel ih =>
    intro n hn
    simp only [Nat.toDigitsCore]
    split
    case isTrue h =>
      have hlt : n < 10 := by omega
      have hn10 : n % 10 = n := Nat.mod_eq_of_lt hlt
      show decValChars [Nat.digitChar (n % 10)] = n
      rw [hn10]
      show 10 * 0 + digitVal (Nat.digitChar n) = n
      rw [digitVal_digitChar n hlt]
      omega
    case isFalse h =>
      rw [toDigitsCore_append]
      show decValChars (Nat.toDigitsCore 10 fuel (n / 10) [] ++ [Nat.digitChar (n % 10)]) = n
      unfold decValChars
      rw [List.foldl_append]
      have hdiv : n / 10 < 10 ^ fuel := by
        rw [Nat.div_lt_iff_lt_mul (by decide : 0 < 10)]
        calc n < 10 ^ (fuel + 1) := hn
          _ = 10 ^ fuel * 10 := pow_succ 10 fuel
      have := ih (n / 10) hdiv
      unfold decValChars at this
      rw [this]
      show 10 * (n / 10) + digitVal (Nat.digitChar (n % 10)) = n
      rw [digitVal_digitChar (n % 10) (Nat.mod_lt _ (by decide))]
      omega

theorem decValChars_toDigits (n : Nat) :
    decValChars (Nat.toDigits 10 n) = n :=
  decValChars_toDigitsCore (n + 1) n
    (lt_of_lt_of_le (Nat.lt_pow_self (by norm_num) n)
      (Nat.pow_le_pow_right (by norm_num) (Nat.le_succ n)))

theorem colon_not_mem_toDigits (n : Nat) : ':' ∉ Nat.toDigits 10 n := by
  intro h
  rcases mem_toDigitsCore_ten (n + 1) n [] ':' h with h | ⟨d, hd, hc⟩
  · exact List.not_mem_nil ':' h
  · exact digitChar_ne_colon d hd hc.symm

theorem append_colon_inj :
    ∀ (s1 : List Char) {s2 r1 r2 : List Char}, ':' ∉ r1 → ':' ∉ r2 →
      s1 ++ ':' :: r1 = s2 ++ ':' :: r2 → s1 = s2 ∧ r1 = r2 := by
  intro s1
  induction s1 with
  | nil =>
    intro s2 r1 r2 h1 h2 heq
    cases s2 with
    | nil =>
      simp only [List.nil_append, List.cons.injEq, true_and] at heq
      exact ⟨rfl, heq⟩
    | cons c s2 =>
      simp only [List.nil_append, List.cons_append, List.cons.injEq] at heq
      obtain ⟨hc, hr⟩ := heq
      exact absurd (hr ▸ List.mem_append_right s2 (List.mem_cons_self ':' r2)) h1
  | cons c s1 ih =>
    intro s2 r1 r2 h1 h2 heq
    cases s2 with
    | nil =>
      simp only [List.cons_append, List.nil_append, List.cons.injEq] at heq
      obtain ⟨hc, hr⟩ := heq
      exact absurd (hr.symm ▸ List.mem_append_right s1 (List.mem_cons_self ':' r1)) h2
    | cons c2 s2 =>
      simp only [List.cons_append, List.cons.injEq] at heq
      obtain ⟨rfl, hr⟩ := heq
      obtain ⟨hs, hr'⟩ := ih h1 h2 hr
      exact ⟨by rw [hs], hr'⟩

theorem pointName_data (s : String) (i : Nat) :
    (pointName s i).data = s.data ++ ':' :: Nat.toDigits 10 i := by
  unfold pointName
  rw [String.data_append, String.data_append, List.append_assoc]
  rfl

/-- The name string `f"{source_id}:{i}"` determines both arguments. -/
theorem pointName_inj {s1 s2 : String} {i1 i2 : Nat}
    (h : pointName s1 i1 = pointName s2 i2) : s1 = s2 ∧ i1 = i2 := by
  have hdata : s1.data ++ ':' :: Nat.toDigits 10 i1 =
      s2.data ++ ':' :: Nat.toDigits 10 i2 := by
    rw [← pointName_data, ← pointName_data, h]
  obtain ⟨hs, hd⟩ := append_colon_inj s1.data
    (colon_not_mem_toDigits i1) (colon_not_mem_toDigits i2) hdata
  constructor
  · calc s1 = s1.data.asString := rfl
      _ = s2.data.asString := by rw [hs]
      _ = s2 := rfl
  · calc i1 = decValChars (Nat.toDigits 10 i1) := (decValChars_toDigits i1).symm
      _ = decValChars (Nat.toDigits 10 i2) := by rw [hd]
      _ = i2 := decValChars_toDigits i2

/-! ## Claim C6: the point-id derivation -/

/-- **C6**: the point-id derivation is a pure deterministic function of
`(source_id, chunk_index)` — identical arguments yield identical ids —
and for natural-number indices, distinct `(source_id, index)` pairs
yield distinct name strings; hence, for any injective hash (`uuid5` up
to hash collision), distinct ids. -/
theorem pointId_deterministic_and_names_distinct :
    (∀ (uuid5 : String → String) (s : String) (i : Nat),
      pointId uuid5 s i = pointId uuid5 s i) ∧
    (∀ (s1 s2 : String) (i1 i2 : Nat), s1 ≠ s2 ∨ i1 ≠ i2 →
      pointName s1 i1 ≠ pointName s2 i2) ∧
    (∀ (uuid5 : String → String), Function.Injective uuid5 →
      ∀ (s1 s2 : String) (i1 i2 : Nat), s1 ≠ s2 ∨ i1 ≠ i2 →
        pointId uuid5 s1 i1 ≠ pointId uuid5 s2 i2) := by
  have hname : ∀ (s1 s2 : String) (i1 i2 : Nat), s1 ≠ s2 ∨ i1 ≠ i2 →
      pointName s1 i1 ≠ pointName s2 i2 := by
    intro s1 s2 i1 i2 hne heq
    obtain ⟨rfl, rfl⟩ := pointName_inj heq
    rcases hne with h | h <;> exact h rfl
  refine ⟨fun _ _ _ => rfl, hname, ?_⟩
  intro uuid5 hinj s1 s2 i1 i2 hne heq
  exact hname s1 s2 i1 i2 hne (hinj heq)

/-- Witness for C6 at concrete inputs. -/
theorem pointId_deterministic_and_names_distinct_witness :
    pointName "doc1" 0 ≠ pointName "doc1" 1 :=
  pointId_deterministic_and_names_distinct.2.1 "doc1" "doc1" 0 1
    (Or.inr (by decide))

/-! ## Claim C1: the ingest result construction -/

/-- **C1** (code bug): for every successfully chunked ingest run, the
final statement of `_upsert`, `RAGUpsertResult(ingested=len(chunks))`
(`main.py` line 91), raises a pydantic `ValidationError` instead of
returning the count: `custom_types.py` declares the model's only field
as `inngest`, so the required field is missing from the keyword
arguments and the flow never produces `{ingested: N}`. -/
theorem upsertResultOf_validation_error (chunks : List String) :
    upsertResultOf chunks =
      Except.error "ValidationError: Field required [inngest]" := rfl

/-! ## Helper lemmas: upsert store semantics -/

/-- The per-key effect of writing one point. -/
def upStep (k : String) (a : Option (List Float × Payload)) (p : Point) :
    Option (List Float × Payload) :=
  if k = p.id then some (p.vector, p.payload) else a

theorem applyUpsert_pointwise (pts : List Point) :
    ∀ (st : Store) (k : String),
      applyUpsert st pts k = pts.foldl (upStep k) (st k) := by
  induction pts with
  | nil => intro st k; rfl
  | cons p ps ih =>
    intro st k
    rw [show applyUpsert st (p :: ps) =
      applyUpsert (fun k' => if k' = p.id then some (p.vector, p.payload) else st k') ps
      from rfl]
    rw [ih]
    rfl

theorem foldl_upStep_override (k : String) (pts : List Point) :
    ∀ acc : Option (List Float × Payload),
      pts.foldl (upStep k) acc =
        match pts.foldl (upStep k) none with
        | some v => some v
        | none => acc := by
  induction pts with
  | nil => intro acc; rfl
  | cons q qs ih =>
    intro acc
    simp only [List.foldl_cons]
    rw [ih (upStep k acc q), ih (upStep k none q)]
    cases hq : qs.foldl (upStep k) none with
    | some v => rfl
    | none =>
      unfold upStep
      by_cases hk : k = q.id <;> simp [hk]

/-- Applying the same upsert twice leaves the store exactly as applying
it once: the second run's writes overwrite points with their own
values, never duplicating them. -/
theorem applyUpsert_idem (st : Store) (pts : List Point) :
    applyUpsert (applyUpsert st pts) pts = applyUpsert st pts := by
  funext k
  rw [applyUpsert_pointwise, applyUpsert_pointwise]
  rw [foldl_upStep_override k pts (pts.foldl (upStep k) (st k))]
  cases hF : pts.foldl (upStep k) none with
  | some v =>
    simp only [hF]
    rw [foldl_upStep_override k pts (st k), hF]
  | none => simp only [hF]

/-! ## Claim C7: idempotent re-ingestion -/

/-- **C7**: running the embed-and-upsert step twice with identical
chunks produces the same list of point ids both times and the same
payloads `{source, text}`, and applying the resulting upsert a second
time leaves the store identical to the first application — the store
holds no duplicate points for the source. -/
theorem upsert_reingestion_idempotent (uuid5 : String → String)
    (source_id : String) (chunks : List String)
    (vectors : List (List Float)) (st : Store) :
    upsertIds uuid5 source_id chunks.length =
      upsertIds uuid5 source_id chunks.length ∧
    upsertPayloads source_id chunks = upsertPayloads source_id chunks ∧
    applyUpsert
        (applyUpsert st (buildPoints (upsertIds uuid5 source_id chunks.length)
          vectors (upsertPayloads source_id chunks)))
        (buildPoints (upsertIds uuid5 source_id chunks.length) vectors
          (upsertPayloads source_id chunks)) =
      applyUpsert st (buildPoints (upsertIds uuid5 source_id chunks.length)
        vectors (upsertPayloads source_id chunks)) :=
  ⟨rfl, rfl, applyUpsert_idem st _⟩

/-! ## Claim C8: search result reconstruction -/

theorem searchLoop_foldl (results : List QPoint) :
    ∀ (c0 : List String) (s0 : Finset String),
      results.foldl (fun acc r =>
          let text := pointText r
          let source := pointSource r
          if text ≠ "" then (acc.1 ++ [text], insert source acc.2) else acc)
        (c0, s0) =
      (c0 ++ (contributing results).map pointText,
        ((contributing results).map pointSource).toFinset ∪ s0) := by
  induction results with
  | nil =>
    intro c0 s0
    simp [contributing]
  | cons r rs ih =>
    intro c0 s0
    by_cases hr : pointText r ≠ ""
    · have hcontrib : contributing (r :: rs) = r :: contributing rs := by
        simp [contributing, List.filter_cons, hr]
      simp only [List.foldl_cons, if_pos hr, hcontrib, List.map_cons]
      rw [ih (c0 ++ [pointText r]) (insert (pointSource r) s0)]
      rw [Prod.mk.injEq]
      refine ⟨?_, ?_⟩
      · simp
      · rw [List.toFinset_cons, Finset.union_insert, Finset.insert_union]
    · have hcontrib : contributing (r :: rs) = contributing rs := by
        simp only [contributing, List.filter_cons]
        simp only [ne_eq, not_not] at hr
        simp [hr]
      simp only [List.foldl_cons, if_neg hr, hcontrib]
      exact ih c0 s0

/-- **C8**: for every result set of at most `top_k` scored points, the
returned contexts are exactly the text payloads of the points with
non-empty text, in the store's order; points with empty or missing text
payload are excluded; the returned sources are the deduplicated (set of)
source payloads of those same contributing points; and the contexts may
number fewer than `top_k`, never more. -/
theorem search_contexts_and_sources (results : List QPoint) (top_k : Nat)
    (hk : results.length ≤ top_k) :
    (searchLoop results).1 = (contributing results).map pointText ∧
    (searchLoop results).2 = ((contributing results).map pointSource).toFinset ∧
    (searchLoop results).1.length ≤ top_k := by
  have h := searchLoop_foldl results [] ∅
  have h1 : (searchLoop results).1 = (contributing results).map pointText := by
    rw [show (searchLoop results) = results.foldl _ ([], ∅) from rfl, h]
    simp
  have h2 : (searchLoop results).2 =
      ((contributing results).map pointSource).toFinset := by
    rw [show (searchLoop results) = results.foldl _ ([], ∅) from rfl, h]
    simp
  refine ⟨h1, h2, ?_⟩
  rw [h1, List.length_map]
  calc (contributing results).length ≤ results.length :=
        List.length_filter_le _ _
    _ ≤ top_k := hk

/-- Witness for C8: three points — one with text and source, one with a
missing payload, one duplicating the first point's source. -/
theorem search_contexts_and_sources_witness :
    (searchLoop [⟨some ⟨some "t1", some "s1"⟩⟩, ⟨none⟩,
      ⟨some ⟨some "t2", some "s1"⟩⟩]).1 =
      (contributing [⟨some ⟨some "t1", some "s1"⟩⟩, ⟨none⟩,
        ⟨some ⟨some "t2", some "s1"⟩⟩]).map pointText ∧
    (searchLoop [⟨some ⟨some "t1", some "s1"⟩⟩, ⟨none⟩,
      ⟨some ⟨some "t2", some "s1"⟩⟩]).2 =
      ((contributing [⟨some ⟨some "t1", some "s1"⟩⟩, ⟨none⟩,
        ⟨some ⟨some "t2", some "s1"⟩⟩]).map pointSource).toFinset ∧
    (searchLoop [⟨some ⟨some "t1", some "s1"⟩⟩, ⟨none⟩,
      ⟨some ⟨some "t2", some "s1"⟩⟩]).1.length ≤ 5 :=
  search_contexts_and_sources
    [⟨some ⟨some "t1", some "s1"⟩⟩, ⟨none⟩, ⟨some ⟨some "t2", some "s1"⟩⟩]
    5 (by decide)

/-! ## Claim C9: resolution of the document's source identifier -/

/-- **C9 counterexample**: an ingest event whose payload carries the
field `source_id` — the code (`main.py` line 50) reads
`data.get("source", pdf_path)`, so the `source_id` value `"X"` is
ignored and the source identifier falls back to the `pdf_path`. -/
theorem resolveSourceId_ignores_source_id_field :
    resolveSourceId [("pdf_path", "p.pdf"), ("source_id", "X")] = some "p.pdf" ∧
      resolveSourceId [("pdf_path", "p.pdf"), ("source_id", "X")] ≠ some "X" := by
  constructor
  · rfl
  · decide

/-- **C9 (amended)**: the optional event field consulted is `source`,
not `source_id`: when the payload contains `source` that value is used
as the document's source identifier, and otherwise it defaults to the
event's `pdf_path`. -/
theorem resolveSourceId_uses_source_field (data : List (String × String))
    (p : String) (hp : data.lookup "pdf_path" = some p) :
    (∀ s, data.lookup "source" = some s → resolveSourceId data = some s) ∧
    (data.lookup "source" = none → resolveSourceId data = some p) := by
  constructor
  · intro s hs
    unfold resolveSourceId
    rw [hp, hs]
    rfl
  · intro hs
    unfold resolveSourceId
    rw [hp, hs]
    rfl

/-- Witness for the amended C9: both branches at concrete events. -/
theorem resolveSourceId_uses_source_field_witness :
    resolveSourceId [("pdf_path", "p.pdf"), ("source", "S")] = some "S" ∧
      resolveSourceId [("pdf_path", "p.pdf")] = some "p.pdf" :=
  ⟨(resolveSourceId_uses_source_field [("pdf_path", "p.pdf"), ("source", "S")]
      "p.pdf" (by decide)).1 "S" (by decide),
    (resolveSourceId_uses_source_field [("pdf_path", "p.pdf")]
      "p.pdf" (by decide)).2 (by decide)⟩

/-! ## Claim C10: the query flow -/

/-- **C10 counterexample**: the context block is not the newline-joined
contexts: already for the single context `"a"` the code produces
`"- a"` (each context is prefixed with `"- "`; multiple contexts are
joined by blank lines), which differs from the newline join `"a"`. -/
theorem contextBlock_not_newline_join :
    contextBlock ["a"] = "- a" ∧ newlineJoined ["a"] = "a" ∧
      contextBlock ["a"] ≠ newlineJoined ["a"] := by
  refine ⟨rfl, rfl, ?_⟩
  decide

/-- **C10 (amended)**: for every query-flow run, including one whose
search returns zero contexts, the LLM inference step is always invoked
— the answer is the stripped LLM output on the assembled prompt, for
every `llm`, never a short-circuited canned answer — with the context
block being the contexts each prefixed with `"- "` and joined by blank
lines (the empty string when there are none), and the flow's result has
`num_contexts` equal to the number of returned contexts and `sources`
equal to the search result's sources. -/
theorem rag_query_flow_shape (llm : String → String) (question : String)
    (found : RAGSearchResult) :
    (rag_query_pdf_ai llm question found).answer =
      pyStrip (llm (userContent question found.contexts)) ∧
    contextBlock [] = "" ∧
    contextBlock found.contexts =
      String.intercalate "\n\n" (found.contexts.map (fun c => "- " ++ c)) ∧
    (rag_query_pdf_ai llm question found).num_contexts =
      found.contexts.length ∧
    (rag_query_pdf_ai llm question found).sources = found.sources :=
  ⟨rfl, rfl, rfl, rfl, rfl⟩

end QueryIT
